import Mathlib

/-!
Shallow embedding of the audio-hub dashboard's catalog loader and resolver
(`ApiService` in `src/unnamed/part_001`, `src/js/api.js`, `src/unnamed/part_002`)
and of the duration-estimation logic (`src/unnamed/part_004`), together with
theorems settling the behavioural claims about them.

JavaScript objects used as string-keyed maps are embedded as association
lists (`JsMap`); platform string builtins (`split`, `toLowerCase`,
`endsWith`) are embedded as executable Lean functions over `List Char` /
`String`; the platform `Date` conversion is embedded for UTC ISO-8601
inputs, the only form the dashboard feeds it.
-/

set_option maxHeartbeats 1600000

namespace AudioHub

/-! ## JavaScript object maps as association lists -/

/-- A JavaScript object used as a string-keyed map, embedded as an
association list in property-insertion order. -/
abbrev JsMap (α : Type) := List (String × α)

/-- Property read `m[k]`: the first binding of key `k`, if any. -/
def getKey {α : Type} : JsMap α → String → Option α
  | [], _ => none
  | (k', v) :: rest, k => if k' = k then some v else getKey rest k

/-- Property write `m[k] = v`: overwrite the binding in place if the key
exists, otherwise append a new binding. -/
def setKey {α : Type} : JsMap α → String → α → JsMap α
  | [], k, v => [(k, v)]
  | (k', v') :: rest, k, v =>
      if k' = k then (k', v) :: rest else (k', v') :: setKey rest k v

@[simp] theorem getKey_nil {α : Type} (k : String) : getKey ([] : JsMap α) k = none := rfl

@[simp] theorem getKey_cons {α : Type} (k' k : String) (v : α) (rest : JsMap α) :
    getKey ((k', v) :: rest) k = if k' = k then some v else getKey rest k := rfl

@[simp] theorem setKey_nil {α : Type} (k : String) (v : α) :
    setKey ([] : JsMap α) k v = [(k, v)] := rfl

@[simp] theorem setKey_cons {α : Type} (k' k : String) (v' v : α) (rest : JsMap α) :
    setKey ((k', v') :: rest) k v =
      if k' = k then (k', v) :: rest else (k', v') :: setKey rest k v := rfl

theorem getKey_setKey_self {α : Type} (m : JsMap α) (k : String) (v : α) :
    getKey (setKey m k v) k = some v := by
  induction m with
  | nil => simp
  | cons hd tl ih =>
      obtain ⟨k', v'⟩ := hd
      by_cases h : k' = k <;> simp [h, ih]

theorem getKey_setKey_ne {α : Type} (m : JsMap α) (k k' : String) (v : α)
    (h : k' ≠ k) : getKey (setKey m k v) k' = getKey m k' := by
  induction m with
  | nil => simp [getKey, h.symm]
  | cons hd tl ih =>
      obtain ⟨k₀, v₀⟩ := hd
      by_cases h0 : k₀ = k
      · subst h0
        simp [h.symm]
      · by_cases h1 : k₀ = k'
        · subst h1
          simp [h0, ih]
        · simp [h0, h1, ih]

/-! ## The JavaScript `String.prototype.split` builtin (single-character
separator), embedded over `List Char`. -/

/-- `split` on a list of characters: `splitCharList sep l` is the list of
maximal separator-free chunks, including empty ones, exactly as the
JavaScript `s.split(sep)` produces (so the result is never empty, and
`splitCharList sep [] = [[]]`). -/
def splitCharList (sep : Char) : List Char → List (List Char)
  | [] => [[]]
  | c :: rest =>
      if c = sep then [] :: splitCharList sep rest
      else
        match splitCharList sep rest with
        | [] => [[c]]
        | h :: t => (c :: h) :: t

/-- Embedding of the JavaScript `s.split(sep)` for a one-character separator. -/
def jsSplit (s : String) (sep : Char) : List String :=
  (splitCharList sep s.toList).map String.mk

theorem splitCharList_ne_nil (sep : Char) (l : List Char) :
    splitCharList sep l ≠ [] := by
  cases l with
  | nil => simp [splitCharList]
  | cons c rest =>
      by_cases h : c = sep
      · simp [splitCharList, h]
      · simp only [splitCharList, h, if_false]
        cases splitCharList sep rest <;> simp

/-- Every chunk produced by `splitCharList` is free of the separator. -/
theorem splitCharList_sep_not_mem (sep : Char) (l : List Char) :
    ∀ p ∈ splitCharList sep l, sep ∉ p := by
  induction l with
  | nil => intro p hp; simp [splitCharList] at hp; simp [hp]
  | cons c rest ih =>
      intro p hp
      by_cases h : c = sep
      · simp only [splitCharList, h, if_true, List.mem_cons] at hp
        rcases hp with hp | hp
        · simp [hp]
        · exact ih p hp
      · simp only [splitCharList, h, if_false] at hp
        rcases heq : splitCharList sep rest with _ | ⟨hd, tl⟩
        · exact absurd heq (splitCharList_ne_nil sep rest)
        · rw [heq] at hp
          rcases List.mem_cons.mp hp with hp | hp
          · subst hp
            intro hmem
            rcases List.mem_cons.mp hmem with hc | hc
            · exact h hc.symm
            · exact ih hd (heq ▸ List.mem_cons_self hd tl) hc
          · exact ih p (heq ▸ List.mem_cons_of_mem hd hp)

/-- Every character of every chunk comes from the original list. -/
theorem splitCharList_mem_subset (sep : Char) (l : List Char) :
    ∀ p ∈ splitCharList sep l, ∀ c ∈ p, c ∈ l := by
  induction l with
  | nil => intro p hp; simp [splitCharList] at hp; simp [hp]
  | cons a rest ih =>
      intro p hp c hc
      by_cases h : a = sep
      · simp only [splitCharList, h, if_true, List.mem_cons] at hp
        rcases hp with hp | hp
        · simp [hp] at hc
        · exact List.mem_cons_of_mem a (ih p hp c hc)
      · simp only [splitCharList, h, if_false] at hp
        rcases heq : splitCharList sep rest with _ | ⟨hd, tl⟩
        · exact absurd heq (splitCharList_ne_nil sep rest)
        · rw [heq] at hp
          rcases List.mem_cons.mp hp with hp | hp
          · subst hp
            rcases List.mem_cons.mp hc with hc | hc
            · exact hc ▸ List.mem_cons_self a rest
            · exact List.mem_cons_of_mem a
                (ih hd (heq ▸ List.mem_cons_self hd tl) c hc)
          · exact List.mem_cons_of_mem a
              (ih p (heq ▸ List.mem_cons_of_mem hd hp) c hc)

@[simp] theorem toList_mk (l : List Char) : (String.mk l).toList = l := rfl

theorem jsSplit_sep_not_mem (s : String) (sep : Char) :
    ∀ p ∈ jsSplit s sep, sep ∉ p.toList := by
  intro p hp
  rcases List.mem_map.mp hp with ⟨q, hq, rfl⟩
  simpa using splitCharList_sep_not_mem sep s.toList q hq

theorem jsSplit_mem_subset (s : String) (sep : Char) :
    ∀ p ∈ jsSplit s sep, ∀ c ∈ p.toList, c ∈ s.toList := by
  intro p hp c hc
  rcases List.mem_map.mp hp with ⟨q, hq, rfl⟩
  exact splitCharList_mem_subset sep s.toList q hq c (by simpa using hc)

/-- Embedding of the JavaScript `s.toLowerCase()` builtin (per-character
lowercasing). -/
def jsToLower (s : String) : String := String.mk (s.toList.map Char.toLower)

/-- Embedding of the JavaScript `s.endsWith(suffix)` builtin. -/
def jsEndsWith (s suf : String) : Bool := suf.toList.isSuffixOf s.toList

/-- Embedding of the JavaScript `parts.join('/')` builtin. -/
def joinWithSlash : List String → String
  | [] => ""
  | [s] => s
  | s :: rest => s ++ "/" ++ joinWithSlash rest

theorem getD_mem {α : Type} (l : List α) (n : Nat) (d : α) (h : n < l.length) :
    l.getD n d ∈ l := by
  induction l generalizing n with
  | nil => simp at h
  | cons a tl ih =>
      cases n with
      | zero => simp
      | succ m =>
          simp only [List.getD_cons_succ]
          exact List.mem_cons_of_mem a (ih m (by simpa using h))

/-! ## Data model (`src/unnamed/part_001`, `src/js/config.js`) -/

/-- One raw record of the storage-listing endpoint:
`{ name, size?, lastModified? }` (`src/unnamed/part_001`, `data.files`). -/
structure FileRecord where
  name : String
  size : Option Nat := none
  lastModified : Option String := none
deriving DecidableEq

/-- The `audioInfo` / `transcriptionInfo` object built per file in
`loadAudioFiles` (`src/unnamed/part_001:103-109,141-147`):
`{ url, filename, path, size, lastModified }`. -/
structure AudioInfo where
  url : String
  filename : String
  path : String
  size : Option Nat
  lastModified : Option String
deriving DecidableEq

/-- The mutable state of `ApiService` (`src/unnamed/part_001:9-10`):
`audioFilesMap` holds arrays of audio files per key, `transcriptionMap`
one transcription file per key. -/
structure CatalogState where
  audioFilesMap : JsMap (List AudioInfo)
  transcriptionMap : JsMap AudioInfo
deriving DecidableEq

/-- `CONFIG.S3_BASE_URL` (`src/js/config.js:10`). -/
def s3BaseUrl : String :=
  "https://spaces-api-audio-files-985923204742-us-east-2.s3.us-east-2.amazonaws.com/"

/-- The recognized audio extensions (regex `\.(mp3|aac|m4a|mp4)$/i` in
`src/unnamed/part_001:101`, list `supportedFormats` in `src/js/api.js:11`). -/
def audioExtensions : List String := [".mp3", ".aac", ".m4a", ".mp4"]

/-- The recognized transcript extensions (regex `\.(json|csv)$/i` in
`src/unnamed/part_001:139`). -/
def transcriptExtensions : List String := [".json", ".csv"]

/-- Case-insensitive test of the audio-extension regex
`/\.(mp3|aac|m4a|mp4)$/i` against a filename. -/
def isAudioFilename (filename : String) : Bool :=
  audioExtensions.any (fun ext => jsEndsWith (jsToLower filename) ext)

/-- Case-insensitive test of the transcript-extension regex
`/\.(json|csv)$/i` against a filename. -/
def isTranscriptFilename (filename : String) : Bool :=
  transcriptExtensions.any (fun ext => jsEndsWith (jsToLower filename) ext)

/-- The regex replace `filename.replace(/\.(mp3|aac|m4a|mp4|json|csv)$/i, '')`
of `extractSpaceIdFromFilename` (`src/unnamed/part_001:74`): drop the
recognized extension from the end of the filename, if one matches. -/
def stripRecognizedExtension (filename : String) : String :=
  match (audioExtensions ++ transcriptExtensions).find?
      (fun ext => jsEndsWith (jsToLower filename) ext) with
  | some ext => String.mk (filename.toList.take (filename.toList.length - ext.length))
  | none => filename

/-- `extractSpaceIdFromFilename` (`src/unnamed/part_001:72-76`): strip the
recognized extension, then take the part before the first `-`
(`cleanFilename.split('-')[0]`). -/
def extractSpaceIdFromFilename (filename : String) : String :=
  (jsSplit (stripRecognizedExtension filename) '-').headD ""

/-- The JavaScript `x || null` coercion on an optional number: `0` is falsy
and becomes `null` (`file.size || null`, `src/unnamed/part_001:107`). -/
def jsOrNullNat (o : Option Nat) : Option Nat :=
  match o with
  | some 0 => none
  | o => o

/-- The JavaScript `x || null` coercion on an optional string: the empty
string is falsy and becomes `null` (`file.lastModified || null`,
`src/unnamed/part_001:108`). -/
def jsOrNullStr (o : Option String) : Option String :=
  match o with
  | some "" => none
  | o => o

/-- The `audioInfo` / `transcriptionInfo` object built from one listing
record (`src/unnamed/part_001:103-109,141-147`); `filename` is the third
`/`-segment of the key. -/
def mkFileInfo (file : FileRecord) (filename : String) : AudioInfo :=
  { url := s3BaseUrl ++ file.name
    filename := filename
    path := file.name
    size := jsOrNullNat file.size
    lastModified := jsOrNullStr file.lastModified }

/-- The composite fallback key `` `${hostUsername}/${date}/${spaceId}` ``
(`src/unnamed/part_001:124,153`). -/
def mkCompositeKey (host date spaceId : String) : String :=
  host ++ "/" ++ date ++ "/" ++ spaceId

/-- The audio-map insertion of `loadAudioFiles`
(`src/unnamed/part_001:111-121` for the bare key, `125-135` for the
composite key): create the array if absent, then push the record unless an
entry with an identical URL is already present. -/
def insertAudio (m : JsMap (List AudioInfo)) (key : String) (info : AudioInfo) :
    JsMap (List AudioInfo) :=
  match getKey m key with
  | none => setKey m key [info]
  | some l => if l.any (fun existing => existing.url = info.url) then m
              else setKey m key (l ++ [info])

/-- The local `filename` of the `forEach` body: `parts[2]`
(`src/unnamed/part_001:98`). -/
def thirdSegment (file : FileRecord) : String := (jsSplit file.name '/').getD 2 ""

/-- The local `spaceId` of the `forEach` body
(`src/unnamed/part_001:102,140`). -/
def fileSpaceId (file : FileRecord) : String :=
  extractSpaceIdFromFilename (thirdSegment file)

/-- The local `compositeKey` of the `forEach` body, built from the verbatim
path segments `parts[0]` and `parts[1]` (`src/unnamed/part_001:124,153`). -/
def fileCompositeKey (file : FileRecord) : String :=
  mkCompositeKey ((jsSplit file.name '/').getD 0 "") ((jsSplit file.name '/').getD 1 "")
    (fileSpaceId file)

/-- The body of the `data.files.forEach` callback of `loadAudioFiles`
(`src/unnamed/part_001:91-157`): split the key on `/`, require at least 3
segments, classify the third segment by extension, and index the file
under the bare space id and the composite key. -/
def processFile (st : CatalogState) (file : FileRecord) : CatalogState :=
  if 3 ≤ (jsSplit file.name '/').length then
    if isAudioFilename (thirdSegment file) then
      { st with audioFilesMap :=
          (insertAudio
            (insertAudio st.audioFilesMap (fileSpaceId file)
              (mkFileInfo file (thirdSegment file)))
            (fileCompositeKey file) (mkFileInfo file (thirdSegment file))) }
    else if isTranscriptFilename (thirdSegment file) then
      { st with transcriptionMap :=
          (setKey
            (setKey st.transcriptionMap (fileSpaceId file)
              (mkFileInfo file (thirdSegment file)))
            (fileCompositeKey file) (mkFileInfo file (thirdSegment file))) }
    else st
  else st

/-- The result of the awaited `getFiles()` call: a JSON payload whose
`files` field may be absent or not an array (`none`) or a list of records. -/
structure ListingData where
  files : Option (List FileRecord)
deriving DecidableEq

/-- The empty maps `{}` assigned at the start of a successful rebuild
(`src/unnamed/part_001:85-86`). -/
def initialState : CatalogState := ⟨[], []⟩

/-- Index construction from a listing: fold the `forEach` body over the
records, starting from freshly cleared maps. -/
def rebuildCatalog (files : List FileRecord) : CatalogState :=
  files.foldl processFile initialState

/-- `loadAudioFiles` (`src/unnamed/part_001:81-172`), embedded as explicit
state passing: the method first awaits `getFiles()`; only after that call
succeeds does it clear `audioFilesMap` / `transcriptionMap` and refill
them. A failed fetch re-throws (`throw error`, line 170) and the previous
state is returned untouched; the second component is the surfaced error. -/
def loadAudioFiles (st : CatalogState) (fetched : Except String ListingData) :
    CatalogState × Option String :=
  match fetched with
  | .error e => (st, some e)
  | .ok data =>
      match data.files with
      | some files => (rebuildCatalog files, none)
      | none => (initialState, none)

/-! ## Resolver (`src/unnamed/part_001:177-222`) -/

/-- JavaScript truthiness of an optional string argument (`null`,
`undefined` and `''` are falsy). -/
def jsTruthy (o : Option String) : Bool :=
  match o with
  | none => false
  | some s => !(s = "")

/-- The host normalization of the composite-key lookup
(`hostUsername.replace(/[@=]/g, '').toLowerCase()`,
`src/unnamed/part_001:186`). -/
def cleanHostForLookup (host : String) : String :=
  jsToLower (String.mk (host.toList.filter (fun c => ¬(c = '@' ∨ c = '='))))

/-- Embedding of `new Date(createdAt).toISOString().split('T')[0]`
(`src/unnamed/part_001:187`, `src/js/api.js:282`). The platform `Date`
built-in is modelled for timestamps already in UTC ISO-8601 form
(`YYYY-MM-DD` or `YYYY-MM-DDThh:mm:ssZ`), the only inputs the dashboard
produces, where the UTC calendar date is the prefix before `'T'`. -/
def isoCalendarDate (createdAt : String) : String :=
  (jsSplit createdAt 'T').headD ""

/-- The tier-2 composite lookup inside `getAllAudioFilesBySpaceId`
(`src/unnamed/part_001:186-190`): normalize the host hint, take the UTC
calendar date of the creation hint, and read the composite key. -/
def compositeLookup (m : JsMap (List AudioInfo)) (spaceId host createdAt : String) :
    Option (List AudioInfo) :=
  getKey m (mkCompositeKey (cleanHostForLookup host) (isoCalendarDate createdAt) spaceId)

/-- `getAllAudioFilesBySpaceId` (`src/unnamed/part_001:177-197`): direct
lookup first, then the composite fallback when both hints are truthy,
otherwise `null`. -/
def getAllAudioFilesBySpaceId (m : JsMap (List AudioInfo)) (spaceId : String)
    (hostUsername createdAt : Option String) : Option (List AudioInfo) :=
  let direct := (getKey m spaceId).getD []
  if direct ≠ [] then some direct
  else if jsTruthy hostUsername ∧ jsTruthy createdAt then
    let fallback := (compositeLookup m spaceId (hostUsername.getD "") (createdAt.getD "")).getD []
    if fallback ≠ [] then some fallback else none
  else none

/-- `getTranscriptionBySpaceId` (`src/unnamed/part_001:202-222`): direct
lookup first, then the composite fallback when both hints are truthy. -/
def getTranscriptionBySpaceId (t : JsMap AudioInfo) (spaceId : String)
    (hostUsername createdAt : Option String) : Option AudioInfo :=
  match getKey t spaceId with
  | some transcription => some transcription
  | none =>
      if jsTruthy hostUsername ∧ jsTruthy createdAt then
        getKey t (mkCompositeKey (cleanHostForLookup (hostUsername.getD ""))
          (isoCalendarDate (createdAt.getD "")) spaceId)
      else none

/-! ## Expected-path prediction (`src/js/api.js:265-285`) -/

/-- The character class `[a-zA-Z0-9\-_.\/]` of the hostname cleanup in
`generateExpectedS3Path` (`src/js/api.js:276`). -/
def allowedHostChar (c : Char) : Bool :=
  ('a' ≤ c && c ≤ 'z') || ('A' ≤ c && c ≤ 'Z') || ('0' ≤ c && c ≤ '9') ||
    c = '-' || c = '_' || c = '.' || c = '/'

/-- The regex replace of every dash run (pattern `-+`, global) with a single
`-` (`src/js/api.js:277`). -/
def collapseDashes : List Char → List Char
  | [] => []
  | [c] => [c]
  | c :: d :: rest =>
      if c = '-' ∧ d = '-' then collapseDashes (d :: rest)
      else c :: collapseDashes (d :: rest)

/-- The regex replace of leading and trailing dash runs (pattern
`^-+` or `-+$`, global) with nothing (`src/js/api.js:278`). -/
def trimDashes (l : List Char) : List Char :=
  ((l.dropWhile (fun c => c = '-')).reverse.dropWhile (fun c => c = '-')).reverse

/-- The `cleanHost` pipeline of `generateExpectedS3Path`
(`src/js/api.js:274-279`): strip `@`, substitute every character outside
`[a-zA-Z0-9\-_.\/]` with `-`, collapse repeated `-`, trim leading/trailing
`-`, truncate to 50 characters (`substring(0, 50)`), and fall back to the
literal `'unknown'` when the result is empty (`|| 'unknown'`). -/
def cleanHostForPath (hostUsername : String) : String :=
  let step1 := hostUsername.toList.filter (fun c => ¬(c = '@'))
  let step2 := step1.map (fun c => if allowedHostChar c then c else '-')
  let step3 := collapseDashes step2
  let step4 := trimDashes step3
  let step5 := step4.take 50
  if step5 = [] then "unknown" else String.mk step5

/-- `generateExpectedS3Path` (`src/js/api.js:265-285`): empty result for a
falsy space id, the diagnostic `spaces/<id><format>` path when either hint
is falsy, otherwise `<cleanHost>/<isoDate>/<spaceId><format>`. -/
def generateExpectedS3Path (spaceId : String) (hostUsername createdAt : Option String)
    (format : String := ".aac") : String :=
  if spaceId = "" then ""
  else if ¬(jsTruthy hostUsername ∧ jsTruthy createdAt) then
    "spaces/" ++ spaceId ++ format
  else
    cleanHostForPath (hostUsername.getD "") ++ "/" ++
      isoCalendarDate (createdAt.getD "") ++ "/" ++ spaceId ++ format

/-! ## Duration estimation (`src/unnamed/part_004:546-680`) -/

/-- The seconds computation of `calculateAudioDuration`
(`src/unnamed/part_004:656-663`): `null` for a falsy or non-positive size,
otherwise `(fileSizeBytes × 8) / (bitrateKbps × 1000)` seconds. -/
def calculateAudioDurationSeconds (fileSizeBytes : Nat) (bitrateKbps : Nat := 128) :
    Option ℚ :=
  if fileSizeBytes = 0 then none
  else some ((fileSizeBytes * 8 : ℚ) / ((bitrateKbps : ℚ) * 1000))

/-- `formatDurationFromSeconds` (`src/unnamed/part_004:670-680`);
`Math.floor` is the integer floor. -/
def formatDurationFromSeconds (durationSeconds : ℚ) : String :=
  let minutes : ℤ := ⌊durationSeconds / 60⌋
  let hours : ℤ := ⌊(minutes : ℚ) / 60⌋
  let remainingMinutes : ℤ := minutes % 60
  if hours > 0 then "~" ++ toString hours ++ "h " ++ toString remainingMinutes ++ "m"
  else "~" ++ toString minutes ++ "m"

/-- `calculateAudioDuration` (`src/unnamed/part_004:656-663`), the formatted
variant shown in the UI. -/
def calculateAudioDuration (fileSizeBytes : Nat) (bitrateKbps : Nat := 128) :
    Option String :=
  (calculateAudioDurationSeconds fileSizeBytes bitrateKbps).map formatDurationFromSeconds

/-- The multi-file aggregation loop of `createSpaceItemHTML`
(`src/unnamed/part_004:566-577`): accumulate
`(file.size * 8) / (128 * 1000)` over files with a truthy size and record
in `hasAllSizes` whether any size was missing. -/
def totalDurationAndFlag (audioFiles : List AudioInfo) : ℚ × Bool :=
  audioFiles.foldl
    (fun acc file =>
      match file.size with
      | some n => if n = 0 then (acc.1, false)
                  else (acc.1 + (n * 8 : ℚ) / (128 * 1000), acc.2)
      | none => (acc.1, false))
    (0, true)

/-- The aggregate duration actually displayed for multiple audio files
(`src/unnamed/part_004:579-580`): the summed estimate only when
`hasAllSizes && totalDuration > 0`, otherwise nothing. -/
def aggregateDurationSeconds (audioFiles : List AudioInfo) : Option ℚ :=
  let acc := totalDurationAndFlag audioFiles
  if acc.2 = true ∧ 0 < acc.1 then some acc.1 else none

/-! ## Legacy MP3 loader (`src/unnamed/part_002:82-95`) -/

/-- The filename computation of the legacy `loadMp3Files`
(`src/unnamed/part_002:89`): `parts.slice(2).join('/')` — everything after
the date segment re-joined, so a filename may contain `/`. -/
def legacyFilename (filePath : String) : String :=
  joinWithSlash ((jsSplit filePath '/').drop 2)

/-- The legacy classification `filename.toLowerCase().endsWith('.mp3')`
(`src/unnamed/part_002:92`). -/
def legacyIsMp3 (filename : String) : Bool :=
  jsEndsWith (jsToLower filename) ".mp3"

/-! ## Derived predicates and concrete inputs used by the claims -/

/-- The URLs of a stored audio list. -/
def urls (l : List AudioInfo) : List String := l.map (fun a => a.url)

/-- Under every key of the audio index, the stored URLs are pairwise
distinct. -/
def NodupUrls (m : JsMap (List AudioInfo)) : Prop :=
  ∀ k l, getKey m k = some l → (urls l).Nodup

/-- The structural invariant of the audio index: every key holding a
non-empty list is either slash-free (a bare space id) or a composite key
`host/date/id` with slash-free components whose stored URLs all also
appear under the bare key `id`. -/
def MapInv (m : JsMap (List AudioInfo)) : Prop :=
  ∀ k l, getKey m k = some l → l ≠ [] →
    ('/' ∉ k.toList) ∨
    ∃ h d i : String, ('/' ∉ h.toList) ∧ ('/' ∉ d.toList) ∧ ('/' ∉ i.toList) ∧
      k = mkCompositeKey h d i ∧
      ∃ lb, getKey m i = some lb ∧ lb ≠ [] ∧ ∀ a ∈ l, a.url ∈ urls lb

/-- The storage-listing record of the composite-tier scenario of §8 of the
spec: key `HostName/2025-06-01/id42-title.aac`. -/
def record42 : FileRecord := ⟨"HostName/2025-06-01/id42-title.aac", none, none⟩

/-- The catalog rebuilt from the one-record listing `[record42]`. -/
def catalog42 : CatalogState := rebuildCatalog [record42]

/-- The asset stored for `record42`. -/
def asset42 : AudioInfo := mkFileInfo record42 "id42-title.aac"

/-- A storage object key with four `/`-separated segments whose third
segment has no recognized extension. -/
def recordDeep : FileRecord := ⟨"host/2025-01-01/a/b.mp3", none, none⟩

/-- A 51-character host hint (49 `a`s, one disallowed `!`, one `a`) whose
cleaned form gets truncated right after a substituted dash. -/
def longHost : String := String.mk (List.replicate 49 'a') ++ "!a"

/-! ## Shared string and map lemmas -/

theorem toList_append (s t : String) : (s ++ t).toList = s.toList ++ t.toList := by
  simp [String.toList]

theorem toList_inj (s t : String) (h : s.toList = t.toList) : s = t := by
  cases s; cases t
  simp only [String.toList] at h
  rw [h]

theorem mkCompositeKey_toList (h d i : String) :
    (mkCompositeKey h d i).toList = h.toList ++ '/' :: (d.toList ++ '/' :: i.toList) := by
  simp [mkCompositeKey, toList_append]

theorem slash_mem_mkCompositeKey (h d i : String) :
    '/' ∈ (mkCompositeKey h d i).toList := by
  rw [mkCompositeKey_toList]
  exact List.mem_append_right _ (List.mem_cons_self _ _)

theorem mkCompositeKey_ne_of_no_slash (h d i k : String) (hk : '/' ∉ k.toList) :
    mkCompositeKey h d i ≠ k := by
  intro heq
  exact hk (heq ▸ slash_mem_mkCompositeKey h d i)

/-- Splitting an append at a separator both of whose left parts are free of
the separator is unambiguous. -/
theorem append_slash_inj : ∀ (a b s t : List Char),
    (∀ c ∈ a, c ≠ '/') → (∀ c ∈ b, c ≠ '/') →
    a ++ '/' :: s = b ++ '/' :: t → a = b ∧ s = t := by
  intro a
  induction a with
  | nil =>
      intro b s t _ hb heq
      cases b with
      | nil => simpa using heq
      | cons y ys =>
          simp only [List.nil_append, List.cons_append, List.cons.injEq] at heq
          exact absurd heq.1.symm (hb y (List.mem_cons_self y ys))
  | cons x xs ih =>
      intro b s t ha hb heq
      cases b with
      | nil =>
          simp only [List.cons_append, List.nil_append, List.cons.injEq] at heq
          exact absurd heq.1 (ha x (List.mem_cons_self x xs))
      | cons y ys =>
          simp only [List.cons_append, List.cons.injEq] at heq
          obtain ⟨hxy, hrest⟩ := heq
          obtain ⟨h1, h2⟩ := ih ys s t
            (fun c hc => ha c (List.mem_cons_of_mem x hc))
            (fun c hc => hb c (List.mem_cons_of_mem y hc)) hrest
          exact ⟨by rw [hxy, h1], h2⟩

theorem count_mkCompositeKey (h d i : String) :
    ((mkCompositeKey h d i).toList.count '/') =
      h.toList.count '/' + d.toList.count '/' + i.toList.count '/' + 2 := by
  rw [mkCompositeKey_toList]
  simp [List.count_append, List.count_cons]
  ring

/-- Two composite keys with slash-free components on one side can only be
equal if the other side's components are slash-free and componentwise
equal. -/
theorem mkCompositeKey_inj (h d i h' d' i' : String)
    (hh : '/' ∉ h.toList) (hd : '/' ∉ d.toList) (hi : '/' ∉ i.toList)
    (heq : mkCompositeKey h' d' i' = mkCompositeKey h d i) :
    h' = h ∧ d' = d ∧ i' = i := by
  have hcount : ((mkCompositeKey h' d' i').toList.count '/')
      = ((mkCompositeKey h d i).toList.count '/') := by rw [heq]
  rw [count_mkCompositeKey, count_mkCompositeKey,
      List.count_eq_zero.mpr hh, List.count_eq_zero.mpr hd, List.count_eq_zero.mpr hi] at hcount
  have hz : h'.toList.count '/' = 0 ∧ d'.toList.count '/' = 0 ∧ i'.toList.count '/' = 0 := by
    omega
  have hh' : '/' ∉ h'.toList := List.count_eq_zero.mp hz.1
  have hd' : '/' ∉ d'.toList := List.count_eq_zero.mp hz.2.1
  have hi' : '/' ∉ i'.toList := List.count_eq_zero.mp hz.2.2
  have hlist : (mkCompositeKey h' d' i').toList = (mkCompositeKey h d i).toList := by rw [heq]
  rw [mkCompositeKey_toList, mkCompositeKey_toList] at hlist
  obtain ⟨e1, hrest⟩ := append_slash_inj h'.toList h.toList _ _
    (fun c hc hcs => hh' (hcs ▸ hc)) (fun c hc hcs => hh (hcs ▸ hc)) hlist
  obtain ⟨e2, e3⟩ := append_slash_inj d'.toList d.toList _ _
    (fun c hc hcs => hd' (hcs ▸ hc)) (fun c hc hcs => hd (hcs ▸ hc)) hrest
  exact ⟨toList_inj _ _ e1, toList_inj _ _ e2, toList_inj _ _ e3⟩

theorem jsSplit_ne_nil (s : String) (sep : Char) : jsSplit s sep ≠ [] := by
  simp [jsSplit, splitCharList_ne_nil]

theorem stripRecognizedExtension_subset (f : String) :
    ∀ c ∈ (stripRecognizedExtension f).toList, c ∈ f.toList := by
  unfold stripRecognizedExtension
  cases (audioExtensions ++ transcriptExtensions).find?
      (fun ext => jsEndsWith (jsToLower f) ext) with
  | none => intro c hc; exact hc
  | some ext =>
      intro c hc
      simp only [toList_mk] at hc
      exact List.take_subset _ _ hc

theorem extractSpaceIdFromFilename_subset (f : String) :
    ∀ c ∈ (extractSpaceIdFromFilename f).toList, c ∈ f.toList := by
  intro c hc
  unfold extractSpaceIdFromFilename at hc
  rcases hsplit : jsSplit (stripRecognizedExtension f) '-' with _ | ⟨p, rest⟩
  · exact absurd hsplit (jsSplit_ne_nil _ _)
  · rw [hsplit] at hc
    simp only [List.headD_cons] at hc
    exact stripRecognizedExtension_subset f c
      (jsSplit_mem_subset _ '-' p (hsplit ▸ List.mem_cons_self p rest) c hc)

/-- The space id derived from the third `/`-segment of a key never contains
a slash. -/
theorem spaceId_no_slash (name : String) (h3 : 3 ≤ (jsSplit name '/').length) :
    '/' ∉ (extractSpaceIdFromFilename ((jsSplit name '/').getD 2 "")).toList := by
  intro hmem
  have hfile : (jsSplit name '/').getD 2 "" ∈ jsSplit name '/' :=
    getD_mem _ 2 _ (by omega)
  exact jsSplit_sep_not_mem name '/' _ hfile
    (extractSpaceIdFromFilename_subset _ '/' hmem)

theorem segment_no_slash (name : String) (n : Nat) (hn : n < (jsSplit name '/').length) :
    '/' ∉ ((jsSplit name '/').getD n "").toList :=
  jsSplit_sep_not_mem name '/' _ (getD_mem _ n _ hn)

/-! ## Claim theorems -/

/-- **C9.** `calculateAudioDuration` estimates
`(sizeBytes × 8) / (bitrateKbps × 1000)` seconds from a positive byte size,
and in particular estimates 120 seconds for 1 920 000 bytes at the default
128 kbps. -/
theorem c9_estimateDuration (sizeBytes bitrateKbps : Nat) (h : sizeBytes ≠ 0) :
    calculateAudioDurationSeconds sizeBytes bitrateKbps
      = some ((sizeBytes * 8 : ℚ) / ((bitrateKbps : ℚ) * 1000))
    ∧ calculateAudioDurationSeconds 1920000 128 = some 120
    ∧ calculateAudioDuration 1920000 128 = some "~2m" := by
  refine ⟨by simp [calculateAudioDurationSeconds, h], ?_, ?_⟩
  · simp only [calculateAudioDurationSeconds, if_neg (by norm_num : (1920000 : Nat) ≠ 0)]
    norm_num
  · have hsec : calculateAudioDurationSeconds 1920000 128 = some 120 := by
      simp only [calculateAudioDurationSeconds, if_neg (by norm_num : (1920000 : Nat) ≠ 0)]
      norm_num
    rw [calculateAudioDuration, hsec, Option.map_some']
    show some (formatDurationFromSeconds 120) = some "~2m"
    congr 1
    unfold formatDurationFromSeconds
    norm_num
    rfl

/-- **C9 witness.** The theorem applied at 1 920 000 bytes and 128 kbps. -/
theorem c9_estimateDuration_witness :
    calculateAudioDurationSeconds 1920000 128
      = some ((1920000 * 8 : ℚ) / ((128 : ℚ) * 1000))
    ∧ calculateAudioDurationSeconds 1920000 128 = some 120
    ∧ calculateAudioDuration 1920000 128 = some "~2m" :=
  c9_estimateDuration 1920000 128 (by norm_num)

/-- **C6.** When the awaited listing fetch fails, `loadAudioFiles` surfaces
the error and returns the previous state untouched: both maps are exactly
as before, so every audio and transcript query afterwards answers exactly
as before the failed rebuild. -/
theorem c6_fetchFailureRetainsIndex (st : CatalogState) (e : String) (spaceId : String)
    (hostUsername createdAt : Option String) :
    loadAudioFiles st (.error e) = (st, some e)
    ∧ getAllAudioFilesBySpaceId (loadAudioFiles st (.error e)).1.audioFilesMap
        spaceId hostUsername createdAt
      = getAllAudioFilesBySpaceId st.audioFilesMap spaceId hostUsername createdAt
    ∧ getTranscriptionBySpaceId (loadAudioFiles st (.error e)).1.transcriptionMap
        spaceId hostUsername createdAt
      = getTranscriptionBySpaceId st.transcriptionMap spaceId hostUsername createdAt :=
  ⟨rfl, rfl, rfl⟩

/-- The fold of the multi-file duration loop, solved in closed form: the
accumulated total adds every per-file estimate (missing sizes contribute
nothing) and the flag records whether every file had a truthy size. -/
theorem totalDurationAndFlag_general (audioFiles : List AudioInfo) :
    ∀ init : ℚ × Bool,
      audioFiles.foldl
        (fun acc file =>
          match file.size with
          | some n => if n = 0 then (acc.1, false)
                      else (acc.1 + (n * 8 : ℚ) / (128 * 1000), acc.2)
          | none => (acc.1, false)) init
      = (init.1 + (audioFiles.map
            (fun f => ((f.size.getD 0 : ℚ) * 8) / (128 * 1000))).sum,
         init.2 && audioFiles.all (fun f => f.size.getD 0 != 0)) := by
  induction audioFiles with
  | nil => intro init; simp
  | cons f fs ih =>
      intro init
      rcases hs : f.size with _ | n
      · simp only [List.foldl_cons, hs, List.map_cons, List.sum_cons, List.all_cons,
          Option.getD_none, Option.getD_some, ih]
        norm_num
      · by_cases hn : n = 0
        · subst hn
          simp only [List.foldl_cons, hs, if_pos rfl, List.map_cons, List.sum_cons,
            List.all_cons, Option.getD_some, ih]
          norm_num
        · simp only [List.foldl_cons, hs, if_neg hn, List.map_cons, List.sum_cons,
            List.all_cons, Option.getD_some, ih, Prod.mk.injEq]
          have hb : (n != 0) = true := by simpa using hn
          rw [hb]
          exact ⟨by ring, by rw [Bool.true_and]⟩

/-- **C7.** The aggregate duration shown for a space's audio assets is the
sum of the per-asset estimates `(sizeBytes × 8) / (128 × 1000)` exactly when
every asset reports a (truthy) size and the sum is positive; whenever any
asset lacks a size the aggregate is withheld (`none`) rather than reported
as the sum over the sized subset. In the claim's example, two 960 000-byte
assets aggregate to 120 seconds, and dropping one size yields no aggregate
(never 60 seconds). -/
theorem c7_aggregateDuration :
    (∀ audioFiles : List AudioInfo,
      aggregateDurationSeconds audioFiles =
        if (∀ f ∈ audioFiles, f.size.getD 0 ≠ 0)
            ∧ 0 < (audioFiles.map (fun f => ((f.size.getD 0 : ℚ) * 8) / (128 * 1000))).sum
        then some ((audioFiles.map (fun f => ((f.size.getD 0 : ℚ) * 8) / (128 * 1000))).sum)
        else none)
    ∧ aggregateDurationSeconds
        [⟨"u1", "f1", "p1", some 960000, none⟩, ⟨"u2", "f2", "p2", some 960000, none⟩]
      = some 120
    ∧ aggregateDurationSeconds
        [⟨"u1", "f1", "p1", some 960000, none⟩, ⟨"u2", "f2", "p2", none, none⟩]
      = none := by
  have hmain : ∀ audioFiles : List AudioInfo,
      aggregateDurationSeconds audioFiles =
        if (∀ f ∈ audioFiles, f.size.getD 0 ≠ 0)
            ∧ 0 < (audioFiles.map (fun f => ((f.size.getD 0 : ℚ) * 8) / (128 * 1000))).sum
        then some ((audioFiles.map (fun f => ((f.size.getD 0 : ℚ) * 8) / (128 * 1000))).sum)
        else none := by
    intro audioFiles
    unfold aggregateDurationSeconds totalDurationAndFlag
    rw [totalDurationAndFlag_general audioFiles (0, true)]
    simp only [zero_add, Bool.true_and]
    by_cases hall : ∀ f ∈ audioFiles, f.size.getD 0 ≠ 0
    · have : (audioFiles.all (fun f => f.size.getD 0 != 0)) = true := by
        rw [List.all_eq_true]
        intro f hf
        simpa using hall f hf
      rw [this]
      by_cases hpos : 0 < (audioFiles.map
          (fun f => ((f.size.getD 0 : ℚ) * 8) / (128 * 1000))).sum
      · rw [if_pos ⟨rfl, hpos⟩, if_pos ⟨hall, hpos⟩]
      · rw [if_neg (fun hc => hpos hc.2), if_neg (fun hc => hpos hc.2)]
    · have : (audioFiles.all (fun f => f.size.getD 0 != 0)) = false := by
        rw [List.all_eq_false]
        push_neg at hall
        obtain ⟨f, hf, hfz⟩ := hall
        exact ⟨f, hf, by simpa using hfz⟩
      rw [this]
      rw [if_neg (by simp), if_neg (fun hc => hall hc.1)]
  refine ⟨hmain, ?_, ?_⟩
  · rw [hmain]
    norm_num
  · rw [hmain]
    norm_num

theorem urls_append (l1 l2 : List AudioInfo) : urls (l1 ++ l2) = urls l1 ++ urls l2 := by
  simp [urls]

theorem insertAudio_eq_new (m : JsMap (List AudioInfo)) (key : String) (info : AudioInfo)
    (hm : getKey m key = none) :
    insertAudio m key info = setKey m key [info] := by
  unfold insertAudio
  rw [hm]

theorem insertAudio_eq_dup (m : JsMap (List AudioInfo)) (key : String) (info : AudioInfo)
    (l : List AudioInfo) (hm : getKey m key = some l)
    (hd : (l.any fun existing => existing.url = info.url) = true) :
    insertAudio m key info = m := by
  unfold insertAudio
  rw [hm]
  show (if (l.any fun existing => decide (existing.url = info.url)) = true then m
      else setKey m key (l ++ [info])) = m
  rw [if_pos hd]

theorem insertAudio_eq_push (m : JsMap (List AudioInfo)) (key : String) (info : AudioInfo)
    (l : List AudioInfo) (hm : getKey m key = some l)
    (hd : (l.any fun existing => existing.url = info.url) = false) :
    insertAudio m key info = setKey m key (l ++ [info]) := by
  unfold insertAudio
  rw [hm]
  show (if (l.any fun existing => decide (existing.url = info.url)) = true then m
      else setKey m key (l ++ [info])) = setKey m key (l ++ [info])
  rw [if_neg (by simp [hd])]

theorem getKey_insertAudio_ne (m : JsMap (List AudioInfo)) (key k : String)
    (info : AudioInfo) (h : k ≠ key) :
    getKey (insertAudio m key info) k = getKey m k := by
  cases hm : getKey m key with
  | none =>
      rw [insertAudio_eq_new m key info hm]
      exact getKey_setKey_ne m key k [info] h
  | some l =>
      cases hd : (l.any fun existing => existing.url = info.url) with
      | true => rw [insertAudio_eq_dup m key info l hm hd]
      | false =>
          rw [insertAudio_eq_push m key info l hm hd]
          exact getKey_setKey_ne m key k (l ++ [info]) h

theorem insertAudio_self_spec (m : JsMap (List AudioInfo)) (key : String) (info : AudioInfo) :
    ∃ l', getKey (insertAudio m key info) key = some l' ∧ l' ≠ []
      ∧ info.url ∈ urls l'
      ∧ ∀ l0, getKey m key = some l0 → ∀ u ∈ urls l0, u ∈ urls l' := by
  cases hm : getKey m key with
  | none =>
      rw [insertAudio_eq_new m key info hm]
      refine ⟨[info], getKey_setKey_self m key [info], by simp, by simp [urls], ?_⟩
      intro l0 h0
      cases h0
  | some l =>
      cases hd : (l.any fun existing => existing.url = info.url) with
      | true =>
          rw [insertAudio_eq_dup m key info l hm hd]
          rcases List.any_eq_true.mp hd with ⟨e, he, heq⟩
          refine ⟨l, hm, ?_, ?_, ?_⟩
          · intro hnil
            rw [hnil] at he
            simp at he
          · have he' : e.url = info.url := by simpa using heq
            rw [← he']
            exact List.mem_map.mpr ⟨e, he, rfl⟩
          · intro l0 h0 u hu
            cases h0
            exact hu
      | false =>
          rw [insertAudio_eq_push m key info l hm hd]
          refine ⟨l ++ [info], getKey_setKey_self m key (l ++ [info]), by simp, ?_, ?_⟩
          · rw [urls_append]
            simp [urls]
          · intro l0 h0 u hu
            cases h0
            rw [urls_append]
            exact List.mem_append_left _ hu

theorem insertAudio_mono (m : JsMap (List AudioInfo)) (key : String) (info : AudioInfo)
    (k : String) (l0 : List AudioInfo) (h0 : getKey m k = some l0) :
    ∃ l1, getKey (insertAudio m key info) k = some l1 ∧ (l0 ≠ [] → l1 ≠ [])
      ∧ ∀ u ∈ urls l0, u ∈ urls l1 := by
  by_cases hk : k = key
  · subst hk
    obtain ⟨l', h1, h2, _, h4⟩ := insertAudio_self_spec m k info
    exact ⟨l', h1, fun _ => h2, h4 l0 h0⟩
  · exact ⟨l0, by rw [getKey_insertAudio_ne m key k info hk, h0], fun h => h,
      fun u hu => hu⟩

/-- The audio branch of `processFile`, as an equation. -/
theorem processFile_eq_audio (st : CatalogState) (file : FileRecord)
    (h3 : 3 ≤ (jsSplit file.name '/').length)
    (ha : isAudioFilename (thirdSegment file) = true) :
    processFile st file =
      { st with audioFilesMap :=
          (insertAudio
            (insertAudio st.audioFilesMap (fileSpaceId file)
              (mkFileInfo file (thirdSegment file)))
            (fileCompositeKey file) (mkFileInfo file (thirdSegment file))) } := by
  simp only [processFile]
  rw [if_pos h3, ha]
  simp

/-- The transcript branch of `processFile`, as an equation. -/
theorem processFile_eq_transcript (st : CatalogState) (file : FileRecord)
    (h3 : 3 ≤ (jsSplit file.name '/').length)
    (ha : isAudioFilename (thirdSegment file) = false)
    (ht : isTranscriptFilename (thirdSegment file) = true) :
    processFile st file =
      { st with transcriptionMap :=
          (setKey
            (setKey st.transcriptionMap (fileSpaceId file)
              (mkFileInfo file (thirdSegment file)))
            (fileCompositeKey file) (mkFileInfo file (thirdSegment file))) } := by
  simp only [processFile]
  rw [if_pos h3, ha, ht]
  simp

/-- `processFile` leaves the audio index unchanged unless it takes the
audio branch. -/
theorem processFile_audio_unchanged (st : CatalogState) (file : FileRecord)
    (ha : ¬(3 ≤ (jsSplit file.name '/').length
        ∧ isAudioFilename (thirdSegment file) = true)) :
    (processFile st file).audioFilesMap = st.audioFilesMap := by
  simp only [processFile]
  by_cases h3 : 3 ≤ (jsSplit file.name '/').length
  · rw [if_pos h3]
    have ha' : isAudioFilename (thirdSegment file) = false := by
      cases hA : isAudioFilename (thirdSegment file)
      · rfl
      · exact absurd ⟨h3, hA⟩ ha
    rw [ha']
    cases hT : isTranscriptFilename (thirdSegment file)
    · simp
    · simp
  · rw [if_neg h3]

/-- The slash-freeness of the derived space id, stated for `fileSpaceId`. -/
theorem fileSpaceId_no_slash (file : FileRecord)
    (h3 : 3 ≤ (jsSplit file.name '/').length) :
    '/' ∉ (fileSpaceId file).toList :=
  spaceId_no_slash file.name h3

theorem fileCompositeKey_ne_fileSpaceId (file : FileRecord)
    (h3 : 3 ≤ (jsSplit file.name '/').length) :
    fileCompositeKey file ≠ fileSpaceId file :=
  mkCompositeKey_ne_of_no_slash _ _ _ _ (fileSpaceId_no_slash file h3)

/-- **C1.** For any listing record whose key has at least 3 `/`-segments and
whose third segment carries a recognized audio extension, rebuilding the
catalog from the one-record listing and resolving with no hints for the
derived canonical identifier returns, via the direct tier, exactly one
asset whose URL is the storage base URL concatenated with the key. -/
theorem c1_directResolution (file : FileRecord)
    (h3 : 3 ≤ (jsSplit file.name '/').length)
    (ha : isAudioFilename (thirdSegment file) = true) :
    ∃ a : AudioInfo,
      getAllAudioFilesBySpaceId (rebuildCatalog [file]).audioFilesMap
          (fileSpaceId file) none none = some [a]
      ∧ a.url = s3BaseUrl ++ file.name := by
  refine ⟨mkFileInfo file (thirdSegment file), ?_, rfl⟩
  have hstep : rebuildCatalog [file] = processFile initialState file := rfl
  rw [hstep, processFile_eq_audio initialState file h3 ha]
  have hm1 : getKey (insertAudio (initialState.audioFilesMap) (fileSpaceId file)
      (mkFileInfo file (thirdSegment file))) (fileSpaceId file)
      = some [mkFileInfo file (thirdSegment file)] := by
    simp [insertAudio, initialState]
  have hm2 : getKey
      (insertAudio
        (insertAudio initialState.audioFilesMap (fileSpaceId file)
          (mkFileInfo file (thirdSegment file)))
        (fileCompositeKey file) (mkFileInfo file (thirdSegment file)))
      (fileSpaceId file)
      = some [mkFileInfo file (thirdSegment file)] := by
    rw [getKey_insertAudio_ne _ _ _ _
      (Ne.symm (fileCompositeKey_ne_fileSpaceId file h3)), hm1]
  simp [getAllAudioFilesBySpaceId, hm2]

/-- **C1 witness.** The theorem applied to the key
`host1/2025-05-28/abc123.mp3`. -/
theorem c1_directResolution_witness :
    (3 ≤ (jsSplit "host1/2025-05-28/abc123.mp3" '/').length)
    ∧ ∃ a : AudioInfo,
        getAllAudioFilesBySpaceId
            (rebuildCatalog [⟨"host1/2025-05-28/abc123.mp3", none, none⟩]).audioFilesMap
            (fileSpaceId ⟨"host1/2025-05-28/abc123.mp3", none, none⟩) none none
          = some [a]
        ∧ a.url = s3BaseUrl ++ "host1/2025-05-28/abc123.mp3" :=
  ⟨by decide,
   c1_directResolution ⟨"host1/2025-05-28/abc123.mp3", none, none⟩ (by decide) (by decide)⟩

theorem insertAudio_nodupUrls (m : JsMap (List AudioInfo)) (key : String)
    (info : AudioInfo) (h : NodupUrls m) : NodupUrls (insertAudio m key info) := by
  intro k l hk
  cases hm : getKey m key with
  | none =>
      rw [insertAudio_eq_new m key info hm] at hk
      by_cases hkk : k = key
      · subst hkk
        rw [getKey_setKey_self] at hk
        cases hk
        simp [urls]
      · rw [getKey_setKey_ne _ _ _ _ hkk] at hk
        exact h k l hk
  | some l0 =>
      cases hd : (l0.any fun existing => existing.url = info.url) with
      | true =>
          rw [insertAudio_eq_dup m key info l0 hm hd] at hk
          exact h k l hk
      | false =>
          rw [insertAudio_eq_push m key info l0 hm hd] at hk
          by_cases hkk : k = key
          · subst hkk
            rw [getKey_setKey_self] at hk
            cases hk
            rw [urls_append]
            refine (h k l0 hm).append (by simp [urls]) ?_
            intro u hu hu'
            have hui : u = info.url := by simpa [urls] using hu'
            rcases List.mem_map.mp hu with ⟨e, he, heq⟩
            rw [List.any_eq_false] at hd
            exact hd e he (by simp [heq, hui])
          · rw [getKey_setKey_ne _ _ _ _ hkk] at hk
            exact h k l hk

theorem processFile_nodupUrls (st : CatalogState) (file : FileRecord)
    (h : NodupUrls st.audioFilesMap) : NodupUrls (processFile st file).audioFilesMap := by
  by_cases hcase : 3 ≤ (jsSplit file.name '/').length
      ∧ isAudioFilename (thirdSegment file) = true
  · rw [processFile_eq_audio st file hcase.1 hcase.2]
    exact insertAudio_nodupUrls _ _ _ (insertAudio_nodupUrls _ _ _ h)
  · rw [processFile_audio_unchanged st file hcase]
    exact h

theorem rebuild_loop_nodupUrls (files : List FileRecord) :
    ∀ st : CatalogState, NodupUrls st.audioFilesMap →
      NodupUrls (files.foldl processFile st).audioFilesMap := by
  induction files with
  | nil => intro st h; exact h
  | cons f fs ih =>
      intro st h
      exact ih (processFile st f) (processFile_nodupUrls st f h)

/-- **C3.** Rebuilding the catalog from a listing and then rebuilding again
from the identical listing produces the same index as a single ingestion
(`loadAudioFiles` clears and refills the maps from scratch), and under
every key of the resulting audio index no two stored assets share a URL. -/
theorem c3_idempotentReingestion (files : List FileRecord) :
    (loadAudioFiles (loadAudioFiles initialState (.ok ⟨some files⟩)).1 (.ok ⟨some files⟩)).1
      = (loadAudioFiles initialState (.ok ⟨some files⟩)).1
    ∧ ∀ k l, getKey (loadAudioFiles (loadAudioFiles initialState (.ok ⟨some files⟩)).1
          (.ok ⟨some files⟩)).1.audioFilesMap k = some l → (urls l).Nodup := by
  constructor
  · rfl
  · intro k l hk
    have hbase : NodupUrls (initialState.audioFilesMap) := by
      intro k' l' h'
      cases h'
    exact rebuild_loop_nodupUrls files initialState hbase k l hk

/-- **C3 witness.** Ingesting the same record twice (a listing with a
duplicated entry, then re-ingested) stores its URL only once. -/
theorem c3_idempotentReingestion_witness :
    (urls [mkFileInfo ⟨"host1/2025-05-28/abc123.mp3", none, none⟩ "abc123.mp3"]).Nodup :=
  (c3_idempotentReingestion
      [⟨"host1/2025-05-28/abc123.mp3", none, none⟩,
       ⟨"host1/2025-05-28/abc123.mp3", none, none⟩]).2
    "abc123" [mkFileInfo ⟨"host1/2025-05-28/abc123.mp3", none, none⟩ "abc123.mp3"]
    (by decide)

/-- **C2 counterexample.** For the catalog built from the single key
`HostName/2025-06-01/id42-title.aac`, the tier-2 composite lookup of
`resolveAudio("id42", "HostName", "2025-06-01T08:00:00Z")` finds nothing:
the loader stored the composite key with the verbatim host `HostName`,
while the lookup lower-cases the hint to `hostname`. -/
theorem c2_counterexample :
    compositeLookup catalog42.audioFilesMap "id42" "HostName" "2025-06-01T08:00:00Z" = none := by
  decide

/-- **C2 amended.** `resolveAudio("id42", "HostName", "2025-06-01T08:00:00Z")`
on that catalog does return exactly the stored asset, but through the
tier-1 bare-identifier lookup, not through tier 2: the asset sits under the
bare key `id42` and under the verbatim-host composite key
`HostName/2025-06-01/id42`, which the normalized composite key
`hostname/2025-06-01/id42` never matches. -/
theorem c2_amended :
    getAllAudioFilesBySpaceId catalog42.audioFilesMap "id42"
        (some "HostName") (some "2025-06-01T08:00:00Z") = some [asset42]
    ∧ getKey catalog42.audioFilesMap "id42" = some [asset42]
    ∧ getKey catalog42.audioFilesMap "HostName/2025-06-01/id42" = some [asset42] := by
  refine ⟨?_, ?_, ?_⟩ <;> decide

/-- **C4 counterexample.** The key `host/2025-01-01/a/b.mp3` (more than 3
segments, `.mp3` at the end) is not indexed at all by the catalog loader:
rebuilding from that one-record listing leaves both maps empty. -/
theorem c4_counterexample :
    rebuildCatalog [recordDeep] = initialState := by
  decide

/-- **C4 amended.** `loadAudioFiles` uses only the third `/`-segment of a
key as the filename — segments beyond the third are discarded, not
rejoined — so any record whose third segment carries no recognized audio or
transcript extension is skipped entirely, even when a later segment ends in
`.mp3`. Only the legacy `loadMp3Files` (`src/unnamed/part_002`) re-joins
the remaining segments, where `host/2025-01-01/a/b.mp3` yields the
filename `a/b.mp3` and is classified as MP3. -/
theorem c4_amended (st : CatalogState) (file : FileRecord)
    (h3 : 3 ≤ (jsSplit file.name '/').length)
    (ha : isAudioFilename (thirdSegment file) = false)
    (ht : isTranscriptFilename (thirdSegment file) = false) :
    processFile st file = st
    ∧ legacyFilename "host/2025-01-01/a/b.mp3" = "a/b.mp3"
    ∧ legacyIsMp3 (legacyFilename "host/2025-01-01/a/b.mp3") = true := by
  refine ⟨?_, by decide, by decide⟩
  simp only [processFile]
  rw [if_pos h3, ha, ht]
  simp

/-- **C4 witness.** The amended theorem applied to the four-segment key
`host/2025-01-01/a/b.mp3`, whose third segment `a` has no recognized
extension. -/
theorem c4_amended_witness :
    (3 ≤ (jsSplit recordDeep.name '/').length)
    ∧ processFile initialState recordDeep = initialState
    ∧ legacyFilename "host/2025-01-01/a/b.mp3" = "a/b.mp3" :=
  ⟨by decide,
   (c4_amended initialState recordDeep (by decide) (by decide) (by decide)).1,
   (c4_amended initialState recordDeep (by decide) (by decide) (by decide)).2.1⟩

/-- **C5.** When two transcript records derive the same canonical space
identifier, the rebuilt catalog keeps only the later-ingested transcript,
under the bare key and under the later record's composite key; audio
records with the same identifier and distinct URLs instead accumulate in
ingestion order. -/
theorem c5_transcriptOverwrite (r1 r2 : FileRecord)
    (_h31 : 3 ≤ (jsSplit r1.name '/').length)
    (_ha1 : isAudioFilename (thirdSegment r1) = false)
    (_ht1 : isTranscriptFilename (thirdSegment r1) = true)
    (h32 : 3 ≤ (jsSplit r2.name '/').length)
    (ha2 : isAudioFilename (thirdSegment r2) = false)
    (ht2 : isTranscriptFilename (thirdSegment r2) = true)
    (hid : fileSpaceId r2 = fileSpaceId r1) :
    getKey (rebuildCatalog [r1, r2]).transcriptionMap (fileSpaceId r1)
      = some (mkFileInfo r2 (thirdSegment r2))
    ∧ getKey (rebuildCatalog [r1, r2]).transcriptionMap (fileCompositeKey r2)
      = some (mkFileInfo r2 (thirdSegment r2))
    ∧ ∀ s1 s2 : FileRecord,
        3 ≤ (jsSplit s1.name '/').length → 3 ≤ (jsSplit s2.name '/').length →
        isAudioFilename (thirdSegment s1) = true →
        isAudioFilename (thirdSegment s2) = true →
        fileSpaceId s2 = fileSpaceId s1 →
        (mkFileInfo s2 (thirdSegment s2)).url ≠ (mkFileInfo s1 (thirdSegment s1)).url →
        getKey (rebuildCatalog [s1, s2]).audioFilesMap (fileSpaceId s1)
          = some [mkFileInfo s1 (thirdSegment s1), mkFileInfo s2 (thirdSegment s2)] := by
  have hstep : rebuildCatalog [r1, r2] = processFile (processFile initialState r1) r2 := rfl
  have hcompne2 : fileCompositeKey r2 ≠ fileSpaceId r1 := by
    rw [← hid]
    exact fileCompositeKey_ne_fileSpaceId r2 h32
  refine ⟨?_, ?_, ?_⟩
  · rw [hstep, processFile_eq_transcript _ r2 h32 ha2 ht2]
    show getKey (setKey _ (fileCompositeKey r2) _) (fileSpaceId r1) = _
    rw [getKey_setKey_ne _ _ _ _ (Ne.symm hcompne2), hid, getKey_setKey_self]
  · rw [hstep, processFile_eq_transcript _ r2 h32 ha2 ht2]
    exact getKey_setKey_self _ _ _
  · intro s1 s2 g31 g32 ga1 ga2 gid gurl
    have gstep : rebuildCatalog [s1, s2] = processFile (processFile initialState s1) s2 := rfl
    have hsid1 : '/' ∉ (fileSpaceId s1).toList := fileSpaceId_no_slash s1 g31
    have hM0 : insertAudio (initialState.audioFilesMap) (fileSpaceId s1)
        (mkFileInfo s1 (thirdSegment s1))
        = [(fileSpaceId s1, [mkFileInfo s1 (thirdSegment s1)])] := by
      rw [insertAudio_eq_new _ _ _
        (show getKey initialState.audioFilesMap (fileSpaceId s1) = none from rfl)]
      rfl
    have hM1 : getKey
        (insertAudio
          (insertAudio initialState.audioFilesMap (fileSpaceId s1)
            (mkFileInfo s1 (thirdSegment s1)))
          (fileCompositeKey s1) (mkFileInfo s1 (thirdSegment s1)))
        (fileSpaceId s1) = some [mkFileInfo s1 (thirdSegment s1)] := by
      rw [getKey_insertAudio_ne _ _ _ _
        (Ne.symm (fileCompositeKey_ne_fileSpaceId s1 g31)), hM0]
      simp
    have hne : ([mkFileInfo s1 (thirdSegment s1)].any
        fun existing => existing.url = (mkFileInfo s2 (thirdSegment s2)).url) = false := by
      simp only [List.any_cons, List.any_nil, Bool.or_false]
      exact decide_eq_false (fun h => gurl h.symm)
    have hpush : insertAudio
        (insertAudio
          (insertAudio initialState.audioFilesMap (fileSpaceId s1)
            (mkFileInfo s1 (thirdSegment s1)))
          (fileCompositeKey s1) (mkFileInfo s1 (thirdSegment s1)))
        (fileSpaceId s2) (mkFileInfo s2 (thirdSegment s2))
        = setKey
            (insertAudio
              (insertAudio initialState.audioFilesMap (fileSpaceId s1)
                (mkFileInfo s1 (thirdSegment s1)))
              (fileCompositeKey s1) (mkFileInfo s1 (thirdSegment s1)))
            (fileSpaceId s1)
            ([mkFileInfo s1 (thirdSegment s1)] ++ [mkFileInfo s2 (thirdSegment s2)]) := by
      rw [gid]
      exact insertAudio_eq_push _ _ _ _ hM1 hne
    rw [gstep, processFile_eq_audio _ s2 g32 ga2, processFile_eq_audio _ s1 g31 ga1]
    show getKey
        (insertAudio
          (insertAudio
            (insertAudio
              (insertAudio initialState.audioFilesMap (fileSpaceId s1)
                (mkFileInfo s1 (thirdSegment s1)))
              (fileCompositeKey s1) (mkFileInfo s1 (thirdSegment s1)))
            (fileSpaceId s2) (mkFileInfo s2 (thirdSegment s2)))
          (fileCompositeKey s2) (mkFileInfo s2 (thirdSegment s2)))
        (fileSpaceId s1)
      = some [mkFileInfo s1 (thirdSegment s1), mkFileInfo s2 (thirdSegment s2)]
    have hne2 : fileSpaceId s1 ≠ fileCompositeKey s2 :=
      Ne.symm (mkCompositeKey_ne_of_no_slash _ _ _ _ hsid1)
    rw [getKey_insertAudio_ne _ _ _ _ hne2, hpush, getKey_setKey_self]
    simp

/-- **C5 witness.** Two transcript files `sp-one.json` and `sp-two.csv`
deriving the identifier `sp`: the later one wins under the bare key. -/
theorem c5_transcriptOverwrite_witness :
    getKey (rebuildCatalog [⟨"hostA/2025-01-01/sp-one.json", none, none⟩,
        ⟨"hostB/2025-02-02/sp-two.csv", none, none⟩]).transcriptionMap
        (fileSpaceId ⟨"hostA/2025-01-01/sp-one.json", none, none⟩)
      = some (mkFileInfo ⟨"hostB/2025-02-02/sp-two.csv", none, none⟩
          (thirdSegment ⟨"hostB/2025-02-02/sp-two.csv", none, none⟩)) :=
  (c5_transcriptOverwrite ⟨"hostA/2025-01-01/sp-one.json", none, none⟩
      ⟨"hostB/2025-02-02/sp-two.csv", none, none⟩
      (by decide) (by decide) (by decide) (by decide) (by decide) (by decide) (by decide)).1

/-! ## Lemmas on the host-cleaning pipeline (`generateExpectedS3Path`) -/

theorem chain'_dropWhile {R : Char → Char → Prop} (p : Char → Bool) :
    ∀ l : List Char, l.Chain' R → (l.dropWhile p).Chain' R := by
  intro l h
  induction l with
  | nil => simp
  | cons a t ih =>
      by_cases hp : p a
      · rw [List.dropWhile_cons_of_pos hp]
        exact ih h.tail
      · rw [List.dropWhile_cons_of_neg hp]
        exact h

theorem chain'_take {R : Char → Char → Prop} (n : Nat) (l : List Char)
    (h : l.Chain' R) : (l.take n).Chain' R := by
  have h2 := (List.take_append_drop n l) ▸ h
  exact h2.left_of_append

theorem dropWhile_head_false (p : Char → Bool) (l : List Char) (x : Char)
    (h : (l.dropWhile p).head? = some x) : p x = false := by
  induction l with
  | nil => simp at h
  | cons a t ih =>
      by_cases hp : p a
      · rw [List.dropWhile_cons_of_pos hp] at h
        exact ih h
      · rw [List.dropWhile_cons_of_neg hp] at h
        simp at h
        rw [← h]
        simpa using hp

theorem collapseDashes_cons (d : Char) (rest : List Char) :
    ∃ t, collapseDashes (d :: rest) = d :: t := by
  induction rest generalizing d with
  | nil => exact ⟨[], rfl⟩
  | cons e es ih =>
      by_cases h : d = '-' ∧ e = '-'
      · obtain ⟨t, ht⟩ := ih e
        refine ⟨t, ?_⟩
        show collapseDashes (d :: e :: es) = d :: t
        simp only [collapseDashes]
        rw [if_pos h, ht, h.1, h.2]
      · exact ⟨collapseDashes (e :: es), by simp only [collapseDashes]; rw [if_neg h]⟩

theorem collapseDashes_chain : ∀ l : List Char,
    (collapseDashes l).Chain' (fun a b => ¬(a = '-' ∧ b = '-')) := by
  intro l
  induction l with
  | nil => simp [collapseDashes]
  | cons c rest ih =>
      cases rest with
      | nil => simp [collapseDashes]
      | cons d es =>
          by_cases h : c = '-' ∧ d = '-'
          · simp only [collapseDashes]
            rw [if_pos h]
            simpa [collapseDashes] using ih
          · simp only [collapseDashes]
            rw [if_neg h]
            obtain ⟨t, ht⟩ := collapseDashes_cons d es
            have ihc : (collapseDashes (d :: es)).Chain'
                (fun a b => ¬(a = '-' ∧ b = '-')) := by
              simpa [collapseDashes] using ih
            rw [ht] at ihc ⊢
            exact List.chain'_cons.mpr ⟨h, ihc⟩

theorem collapseDashes_subset : ∀ (l : List Char), ∀ c ∈ collapseDashes l, c ∈ l := by
  intro l
  induction l with
  | nil => simp [collapseDashes]
  | cons a rest ih =>
      cases rest with
      | nil => simp [collapseDashes]
      | cons d es =>
          intro c hc
          by_cases h : a = '-' ∧ d = '-'
          · simp only [collapseDashes] at hc
            rw [if_pos h] at hc
            exact List.mem_cons_of_mem a (by simpa [collapseDashes] using ih c hc)
          · simp only [collapseDashes] at hc
            rw [if_neg h] at hc
            rcases List.mem_cons.mp hc with rfl | hc
            · exact List.mem_cons_self _ _
            · exact List.mem_cons_of_mem a (by simpa [collapseDashes] using ih c hc)

theorem trimDashes_subset (l : List Char) : ∀ c ∈ trimDashes l, c ∈ l := by
  intro c hc
  unfold trimDashes at hc
  rw [List.mem_reverse] at hc
  have hc2 : c ∈ (l.dropWhile (fun c => c = '-')).reverse :=
    (List.dropWhile_suffix _).subset hc
  rw [List.mem_reverse] at hc2
  exact (List.dropWhile_suffix _).subset hc2

theorem trimDashes_chain (l : List Char)
    (h : l.Chain' (fun a b => ¬(a = '-' ∧ b = '-'))) :
    (trimDashes l).Chain' (fun a b => ¬(a = '-' ∧ b = '-')) := by
  unfold trimDashes
  have hflip : ∀ m : List Char, m.Chain' (fun a b => ¬(a = '-' ∧ b = '-')) →
      m.reverse.Chain' (fun a b => ¬(a = '-' ∧ b = '-')) := by
    intro m hm
    rw [List.chain'_reverse]
    exact hm.imp (fun a b hab => fun hx => hab ⟨hx.2, hx.1⟩)
  exact hflip _ (chain'_dropWhile _ _ (hflip _ (chain'_dropWhile _ _ h)))

theorem trimDashes_head (l : List Char) (x : Char)
    (hx : (trimDashes l).head? = some x) : x ≠ '-' := by
  unfold trimDashes at hx
  obtain ⟨t, ht⟩ :
      ((l.dropWhile (fun c => c = '-')).reverse.dropWhile (fun c => c = '-'))
        <:+ (l.dropWhile (fun c => c = '-')).reverse :=
    List.dropWhile_suffix _
  have hd : l.dropWhile (fun c => c = '-')
      = ((l.dropWhile (fun c => c = '-')).reverse.dropWhile (fun c => c = '-')).reverse
        ++ t.reverse := by
    have h2 := congrArg List.reverse ht
    simpa [List.reverse_append] using h2.symm
  rcases heq : ((l.dropWhile (fun c => c = '-')).reverse.dropWhile
      (fun c => c = '-')).reverse with _ | ⟨y, ys⟩
  · rw [heq] at hx
    cases hx
  · rw [heq] at hx
    simp only [List.head?_cons] at hx
    injection hx with hyx
    subst hyx
    have hdh : (l.dropWhile (fun c => c = '-')).head? = some y := by
      rw [hd, heq]
      rfl
    exact of_decide_eq_false (dropWhile_head_false _ l y hdh)

theorem trimDashes_getLast (l : List Char) (x : Char)
    (hx : (trimDashes l).getLast? = some x) : x ≠ '-' := by
  rw [← List.head?_reverse] at hx
  unfold trimDashes at hx
  rw [List.reverse_reverse] at hx
  exact of_decide_eq_false (dropWhile_head_false _ _ x hx)

theorem chain'_of_no_dash (l : List Char) (h : '-' ∉ l) :
    l.Chain' (fun a b => ¬(a = '-' ∧ b = '-')) := by
  induction l with
  | nil => simp
  | cons a t ih =>
      cases t with
      | nil => simp
      | cons b ts =>
          refine List.chain'_cons.mpr ⟨?_, ?_⟩
          · intro hx
            exact h (hx.1 ▸ List.mem_cons_self a (b :: ts))
          · exact ih (fun hm => h (List.mem_cons_of_mem a hm))

theorem ne_dash_of_head (l : List Char) (h : '-' ∉ l) (x : Char)
    (hx : l.head? = some x) : x ≠ '-' := by
  intro heq
  exact h (heq ▸ List.mem_of_mem_head? hx)

theorem ne_dash_of_getLast (l : List Char) (h : '-' ∉ l) (x : Char)
    (hx : l.getLast? = some x) : x ≠ '-' := by
  intro heq
  rw [← List.head?_reverse] at hx
  have hmem : x ∈ l.reverse := List.mem_of_mem_head? hx
  rw [List.mem_reverse] at hmem
  exact h (heq ▸ hmem)

/-- The post-conditions of the `cleanHost` pipeline of
`generateExpectedS3Path`: only characters of the allowed class, no two
consecutive dashes, no leading dash, at most 50 characters, the literal
`unknown` exactly when cleaning empties the host, and no trailing dash as
long as the trimmed host needed no truncation. -/
theorem cleanHostForPath_spec (host : String) :
    (∀ c ∈ (cleanHostForPath host).toList, allowedHostChar c = true)
    ∧ (cleanHostForPath host).toList.Chain' (fun a b => ¬(a = '-' ∧ b = '-'))
    ∧ (∀ x, (cleanHostForPath host).toList.head? = some x → x ≠ '-')
    ∧ (cleanHostForPath host).length ≤ 50
    ∧ (trimDashes (collapseDashes ((host.toList.filter (fun c => ¬(c = '@'))).map
          (fun c => if allowedHostChar c then c else '-'))) = []
        → cleanHostForPath host = "unknown")
    ∧ ((trimDashes (collapseDashes ((host.toList.filter (fun c => ¬(c = '@'))).map
          (fun c => if allowedHostChar c then c else '-')))).length ≤ 50
        → ∀ x, (cleanHostForPath host).toList.getLast? = some x → x ≠ '-') := by
  have hstep2 : ∀ c ∈ (host.toList.filter (fun c => ¬(c = '@'))).map
      (fun c => if allowedHostChar c then c else '-'), allowedHostChar c = true := by
    intro c hc
    rcases List.mem_map.mp hc with ⟨x, _, rfl⟩
    by_cases hx : allowedHostChar x
    · rw [if_pos hx]
      exact hx
    · rw [if_neg hx]
      decide
  by_cases h5 : (trimDashes (collapseDashes ((host.toList.filter (fun c => ¬(c = '@'))).map
      (fun c => if allowedHostChar c then c else '-')))).take 50 = []
  · have hcu : cleanHostForPath host = "unknown" := by
      unfold cleanHostForPath
      rw [if_pos h5]
    rw [hcu]
    have hnd : '-' ∉ ("unknown" : String).toList := by decide
    exact ⟨by decide, chain'_of_no_dash _ hnd, ne_dash_of_head _ hnd, by decide,
      fun _ => rfl, fun _ => ne_dash_of_getLast _ hnd⟩
  · have hcu : cleanHostForPath host
        = String.mk ((trimDashes (collapseDashes
            ((host.toList.filter (fun c => ¬(c = '@'))).map
              (fun c => if allowedHostChar c then c else '-')))).take 50) := by
      unfold cleanHostForPath
      rw [if_neg h5]
    rw [hcu]
    simp only [toList_mk]
    refine ⟨?_, ?_, ?_, ?_, ?_, ?_⟩
    · intro c hc
      exact hstep2 c (collapseDashes_subset _ c
        (trimDashes_subset _ c (List.take_subset _ _ hc)))
    · exact chain'_take 50 _ (trimDashes_chain _ (collapseDashes_chain _))
    · intro x hx
      have hhead : (trimDashes (collapseDashes
          ((host.toList.filter (fun c => ¬(c = '@'))).map
            (fun c => if allowedHostChar c then c else '-')))).head? = some x := by
        rcases heq : trimDashes (collapseDashes ((host.toList.filter (fun c => ¬(c = '@'))).map
            (fun c => if allowedHostChar c then c else '-'))) with _ | ⟨y, ys⟩
        · rw [heq] at h5
          exact absurd rfl h5
        · rw [heq] at hx
          rw [show (50 : Nat) = 49 + 1 from rfl, List.take_succ_cons] at hx
          simp only [List.head?_cons] at hx ⊢
          exact hx
      exact trimDashes_head _ x hhead
    · show (String.mk _).length ≤ 50
      have : (String.mk ((trimDashes (collapseDashes
          ((host.toList.filter (fun c => ¬(c = '@'))).map
            (fun c => if allowedHostChar c then c else '-')))).take 50)).length
          = ((trimDashes (collapseDashes ((host.toList.filter (fun c => ¬(c = '@'))).map
              (fun c => if allowedHostChar c then c else '-')))).take 50).length := rfl
      rw [this, List.length_take]
      exact min_le_left _ _
    · intro hempty
      rw [hempty] at h5
      exact absurd rfl h5
    · intro hlen x hx
      rw [List.take_of_length_le hlen] at hx
      exact trimDashes_getLast _ x hx

/-- **C8 counterexample.** For the 51-character host `longHost` (49 `a`s,
`!`, `a`), the cleaned host segment of the predicted path ends in `-`: the
pipeline trims dashes before truncating to 50 characters, so the
truncation reintroduces a trailing dash. And for the empty identifier the
function returns `""`, not `spaces/<id><ext>`. -/
theorem c8_counterexample :
    (cleanHostForPath longHost).toList.getLast? = some '-'
    ∧ generateExpectedS3Path "id9" (some longHost) (some "2025-01-02T00:00:00Z") ".aac"
      = cleanHostForPath longHost ++ "/" ++ "2025-01-02" ++ "/" ++ "id9" ++ ".aac"
    ∧ generateExpectedS3Path "" none none ".aac" = "" := by
  refine ⟨by decide, by decide, by decide⟩

/-- **C8 amended.** For every non-empty identifier, non-empty host and
creation hints, and extension, `generateExpectedS3Path` returns
`cleanedHost ++ "/" ++ isoDate ++ "/" ++ identifier ++ extension`, where
the cleaned host contains only characters in `[A-Za-z0-9\-_./]`, has no
two consecutive dashes, no leading dash, at most 50 characters, and is the
literal `unknown` when cleaning yields the empty string; a trailing dash is
excluded only when the trimmed host needed no 50-character truncation.
When either hint is missing or empty, the function returns
`spaces/<identifier><extension>`; for the empty identifier it returns `""`. -/
theorem c8_amended (spaceId host createdAt format : String)
    (hid : spaceId ≠ "") (hh : host ≠ "") (hc : createdAt ≠ "") :
    generateExpectedS3Path spaceId (some host) (some createdAt) format
      = cleanHostForPath host ++ "/" ++ isoCalendarDate createdAt ++ "/"
        ++ spaceId ++ format
    ∧ (∀ c ∈ (cleanHostForPath host).toList, allowedHostChar c = true)
    ∧ (cleanHostForPath host).toList.Chain' (fun a b => ¬(a = '-' ∧ b = '-'))
    ∧ (∀ x, (cleanHostForPath host).toList.head? = some x → x ≠ '-')
    ∧ (cleanHostForPath host).length ≤ 50
    ∧ (trimDashes (collapseDashes ((host.toList.filter (fun c => ¬(c = '@'))).map
          (fun c => if allowedHostChar c then c else '-'))) = []
        → cleanHostForPath host = "unknown")
    ∧ ((trimDashes (collapseDashes ((host.toList.filter (fun c => ¬(c = '@'))).map
          (fun c => if allowedHostChar c then c else '-')))).length ≤ 50
        → ∀ x, (cleanHostForPath host).toList.getLast? = some x → x ≠ '-')
    ∧ (∀ h' c' : Option String, ¬(jsTruthy h' = true ∧ jsTruthy c' = true)
        → generateExpectedS3Path spaceId h' c' format = "spaces/" ++ spaceId ++ format) := by
  obtain ⟨s1, s2, s3, s4, s5, s6⟩ := cleanHostForPath_spec host
  refine ⟨?_, s1, s2, s3, s4, s5, s6, ?_⟩
  · have ht1 : jsTruthy (some host) = true := by
      simp [jsTruthy, hh]
    have ht2 : jsTruthy (some createdAt) = true := by
      simp [jsTruthy, hc]
    unfold generateExpectedS3Path
    rw [if_neg hid, if_neg (by rw [ht1, ht2]; simp)]
    rfl
  · intro h' c' hfalsy
    unfold generateExpectedS3Path
    rw [if_neg hid, if_pos hfalsy]

/-- **C8 witness.** The amended theorem applied to the spec's example
`predictStoragePath("id9", "My Host!!", "2025-01-02T00:00:00Z", ".aac")`,
whose predicted path is `My-Host/2025-01-02/id9.aac`. -/
theorem c8_amended_witness :
    ("id9" : String) ≠ ""
    ∧ generateExpectedS3Path "id9" (some "My Host!!") (some "2025-01-02T00:00:00Z") ".aac"
      = cleanHostForPath "My Host!!" ++ "/" ++ isoCalendarDate "2025-01-02T00:00:00Z" ++ "/"
        ++ "id9" ++ ".aac"
    ∧ cleanHostForPath "My Host!!" = "My-Host" :=
  ⟨by decide,
   (c8_amended "id9" "My Host!!" "2025-01-02T00:00:00Z" ".aac"
      (by decide) (by decide) (by decide)).1,
   by decide⟩

/-! ## The composite-key invariant (C10) -/

theorem MapInv_insert_bare (m : JsMap (List AudioInfo)) (sid : String) (info : AudioInfo)
    (hs : '/' ∉ sid.toList) (h : MapInv m) : MapInv (insertAudio m sid info) := by
  intro k l hk hne
  by_cases hks : k = sid
  · subst hks
    exact Or.inl hs
  · rw [getKey_insertAudio_ne _ _ _ _ hks] at hk
    rcases h k l hk hne with hleft | ⟨hh, dd, ii, f1, f2, f3, hkey, lb, hlb, hlbne, hsub⟩
    · exact Or.inl hleft
    · obtain ⟨lb1, hlb1, hne1, hsub1⟩ := insertAudio_mono m sid info ii lb hlb
      exact Or.inr ⟨hh, dd, ii, f1, f2, f3, hkey, lb1, hlb1, hne1 hlbne,
        fun a ha => hsub1 _ (hsub a ha)⟩

theorem MapInv_insert_comp (m : JsMap (List AudioInfo)) (host date sid : String)
    (info : AudioInfo) (fh : '/' ∉ host.toList) (fd : '/' ∉ date.toList)
    (fs : '/' ∉ sid.toList) (h : MapInv m)
    (hbare : ∃ lb, getKey m sid = some lb ∧ lb ≠ [] ∧ info.url ∈ urls lb) :
    MapInv (insertAudio m (mkCompositeKey host date sid) info) := by
  obtain ⟨lb, hlb, hlbne, hurl⟩ := hbare
  have hcompne : sid ≠ mkCompositeKey host date sid :=
    Ne.symm (mkCompositeKey_ne_of_no_slash host date sid sid fs)
  have hbare2 : getKey (insertAudio m (mkCompositeKey host date sid) info) sid
      = some lb := by
    rw [getKey_insertAudio_ne _ _ _ _ hcompne, hlb]
  intro k l hk hne
  by_cases hkc : k = mkCompositeKey host date sid
  · subst hkc
    refine Or.inr ⟨host, date, sid, fh, fd, fs, rfl, lb, hbare2, hlbne, ?_⟩
    cases hm : getKey m (mkCompositeKey host date sid) with
    | none =>
        rw [insertAudio_eq_new _ _ _ hm, getKey_setKey_self] at hk
        cases hk
        intro a ha
        rcases List.mem_cons.mp ha with rfl | ha
        · exact hurl
        · simp at ha
    | some l0 =>
        have hold : ∀ a ∈ l0, a.url ∈ urls lb := by
          intro a ha
          have hl0ne : l0 ≠ [] := by
            intro hcon
            rw [hcon] at ha
            simp at ha
          rcases h _ l0 hm hl0ne with hleft
            | ⟨hh, dd, ii, f1, f2, f3, hkey, lb', hlb', _, hsub'⟩
          · exact absurd (slash_mem_mkCompositeKey host date sid) hleft
          · obtain ⟨_, _, e3⟩ := mkCompositeKey_inj hh dd ii host date sid f1 f2 f3 hkey
            rw [e3] at hlb
            rw [hlb] at hlb'
            cases hlb'
            exact hsub' a ha
        cases hd0 : (l0.any fun existing => existing.url = info.url) with
        | true =>
            rw [insertAudio_eq_dup _ _ _ _ hm hd0, hm] at hk
            cases hk
            exact hold
        | false =>
            rw [insertAudio_eq_push _ _ _ _ hm hd0, getKey_setKey_self] at hk
            cases hk
            intro a ha
            rcases List.mem_append.mp ha with ha | ha
            · exact hold a ha
            · rcases List.mem_cons.mp ha with rfl | ha
              · exact hurl
              · simp at ha
  · rw [getKey_insertAudio_ne _ _ _ _ hkc] at hk
    rcases h k l hk hne with hleft | ⟨hh, dd, ii, f1, f2, f3, hkey, lb', hlb', hlbne', hsub'⟩
    · exact Or.inl hleft
    · refine Or.inr ⟨hh, dd, ii, f1, f2, f3, hkey, lb', ?_, hlbne', hsub'⟩
      rw [getKey_insertAudio_ne _ _ _ _
        (Ne.symm (mkCompositeKey_ne_of_no_slash host date sid ii f3)), hlb']

theorem processFile_MapInv (st : CatalogState) (file : FileRecord)
    (h : MapInv st.audioFilesMap) : MapInv (processFile st file).audioFilesMap := by
  by_cases hcase : 3 ≤ (jsSplit file.name '/').length
      ∧ isAudioFilename (thirdSegment file) = true
  · obtain ⟨h3, ha⟩ := hcase
    rw [processFile_eq_audio st file h3 ha]
    have hsid : '/' ∉ (fileSpaceId file).toList := fileSpaceId_no_slash file h3
    have hhost : '/' ∉ ((jsSplit file.name '/').getD 0 "").toList :=
      segment_no_slash file.name 0 (by omega)
    have hdate : '/' ∉ ((jsSplit file.name '/').getD 1 "").toList :=
      segment_no_slash file.name 1 (by omega)
    have h1 : MapInv (insertAudio st.audioFilesMap (fileSpaceId file)
        (mkFileInfo file (thirdSegment file))) :=
      MapInv_insert_bare _ _ _ hsid h
    obtain ⟨lb, hlb, hlbne, hurl, _⟩ :=
      insertAudio_self_spec st.audioFilesMap (fileSpaceId file)
        (mkFileInfo file (thirdSegment file))
    exact MapInv_insert_comp _ _ _ _ _ hhost hdate hsid h1 ⟨lb, hlb, hlbne, hurl⟩
  · rw [processFile_audio_unchanged st file hcase]
    exact h

theorem rebuildCatalog_MapInv (files : List FileRecord) :
    MapInv (rebuildCatalog files).audioFilesMap := by
  have hloop : ∀ (fs : List FileRecord) (st : CatalogState), MapInv st.audioFilesMap →
      MapInv (fs.foldl processFile st).audioFilesMap := by
    intro fs
    induction fs with
    | nil => intro st h; exact h
    | cons f fs ih => intro st h; exact ih _ (processFile_MapInv st f h)
  exact hloop files initialState (fun k l hk => by cases hk)

/-- **C10.** In every rebuilt catalog, each composite key `host/date/id`
(slash-free components) maps to a list whose URLs all also appear under the
bare key `id`; consequently, whenever `getAllAudioFilesBySpaceId` answers
at all, the answer is the direct (tier-1) list — the composite tier never
succeeds on a query where the direct tier failed. -/
theorem c10_compositeNeverBeatsDirect (files : List FileRecord) (spaceId : String)
    (host createdAt : Option String) (l : List AudioInfo)
    (hres : getAllAudioFilesBySpaceId (rebuildCatalog files).audioFilesMap
        spaceId host createdAt = some l) :
    getKey (rebuildCatalog files).audioFilesMap spaceId = some l ∧ l ≠ []
    ∧ ∀ h d i : String, '/' ∉ h.toList → '/' ∉ d.toList → '/' ∉ i.toList →
        ∀ lc, getKey (rebuildCatalog files).audioFilesMap (mkCompositeKey h d i) = some lc →
          ∀ a ∈ lc, ∃ lb, getKey (rebuildCatalog files).audioFilesMap i = some lb
            ∧ a.url ∈ urls lb := by
  have hinv := rebuildCatalog_MapInv files
  have hmain : getKey (rebuildCatalog files).audioFilesMap spaceId = some l ∧ l ≠ [] := by
    simp only [getAllAudioFilesBySpaceId, compositeLookup] at hres
    by_cases hdir : ((getKey (rebuildCatalog files).audioFilesMap spaceId).getD []) ≠ []
    · rw [if_pos hdir] at hres
      cases hres
      cases hval : getKey (rebuildCatalog files).audioFilesMap spaceId with
      | none =>
          rw [hval] at hdir
          simp at hdir
      | some x =>
          rw [hval] at hdir
          exact ⟨by simp, by simpa using hdir⟩
    · rw [if_neg hdir] at hres
      by_cases hhints : jsTruthy host = true ∧ jsTruthy createdAt = true
      · rw [if_pos hhints] at hres
        by_cases hfb : ((getKey (rebuildCatalog files).audioFilesMap
            (mkCompositeKey (cleanHostForLookup (host.getD ""))
              (isoCalendarDate (createdAt.getD "")) spaceId)).getD []) ≠ []
        · exfalso
          obtain ⟨lc, hlc, hlcne⟩ : ∃ lc,
              getKey (rebuildCatalog files).audioFilesMap
                (mkCompositeKey (cleanHostForLookup (host.getD ""))
                  (isoCalendarDate (createdAt.getD "")) spaceId) = some lc ∧ lc ≠ [] := by
            cases hcl : getKey (rebuildCatalog files).audioFilesMap
                (mkCompositeKey (cleanHostForLookup (host.getD ""))
                  (isoCalendarDate (createdAt.getD "")) spaceId) with
            | none =>
                rw [hcl] at hfb
                simp at hfb
            | some x =>
                rw [hcl] at hfb
                simp only [Option.getD_some] at hfb
                exact ⟨x, rfl, hfb⟩
          rcases hinv _ lc hlc hlcne with hleft
            | ⟨hh, dd, ii, f1, f2, f3, hkey, lb, hlb, hlbne, _⟩
          · exact absurd (slash_mem_mkCompositeKey _ _ _) hleft
          · obtain ⟨_, _, e3⟩ := mkCompositeKey_inj hh dd ii _ _ _ f1 f2 f3 hkey
            rw [← e3] at hlb
            apply hdir
            rw [hlb]
            simpa using hlbne
        · rw [if_neg hfb] at hres
          cases hres
      · rw [if_neg hhints] at hres
        cases hres
  refine ⟨hmain.1, hmain.2, ?_⟩
  intro hh dd ii f1 f2 f3 lc hlc a ha
  by_cases hlcne : lc = []
  · rw [hlcne] at ha
    simp at ha
  · rcases hinv _ lc hlc hlcne with hleft
      | ⟨h2, d2, i2, g1, g2, g3, hkey, lb, hlb, _, hsub⟩
    · exact absurd (slash_mem_mkCompositeKey hh dd ii) hleft
    · obtain ⟨_, _, e3⟩ := mkCompositeKey_inj h2 d2 i2 hh dd ii g1 g2 g3 hkey
      rw [← e3] at hlb
      exact ⟨lb, hlb, hsub a ha⟩

/-- **C10 witness.** The theorem applied to the one-record catalog of
`host1/2025-05-28/abc123.mp3` queried with bare identifier `abc123`. -/
theorem c10_compositeNeverBeatsDirect_witness :
    getKey (rebuildCatalog [⟨"host1/2025-05-28/abc123.mp3", none, none⟩]).audioFilesMap
        "abc123"
      = some [mkFileInfo ⟨"host1/2025-05-28/abc123.mp3", none, none⟩ "abc123.mp3"]
    ∧ [mkFileInfo ⟨"host1/2025-05-28/abc123.mp3", none, none⟩ "abc123.mp3"] ≠ [] :=
  ⟨(c10_compositeNeverBeatsDirect [⟨"host1/2025-05-28/abc123.mp3", none, none⟩]
      "abc123" none none
      [mkFileInfo ⟨"host1/2025-05-28/abc123.mp3", none, none⟩ "abc123.mp3"]
      (by decide)).1,
   (c10_compositeNeverBeatsDirect [⟨"host1/2025-05-28/abc123.mp3", none, none⟩]
      "abc123" none none
      [mkFileInfo ⟨"host1/2025-05-28/abc123.mp3", none, none⟩ "abc123.mp3"]
      (by decide)).2.1⟩

end AudioHub
